import Mathlib

/-!
Verification of the Mnemosyne memory engine (models, memory store, curator,
oracle/retriever, engine orchestration) against its specification.

The Python sources are shallowly embedded: every float score (heat, similarity,
relevance) becomes an exact rational, dictionaries become insertion-ordered
association lists, and the two ChromaDB-backed similarity searches become an
explicit search-function parameter (their output feeds the logic under study;
the vector backend itself is external).  Where a verdict depends on IEEE
binary64 rounding (the decay eviction boundary), the arithmetic is modelled
exactly: binary64 values are the dyadic rationals they denote and each
operation rounds its exact result to the nearest 53-bit significand, ties to
even.  Wall-clock timestamp fields (`created_at`, `updated_at`) are omitted: no
studied property reads them.
-/

set_option maxRecDepth 40000

namespace Mnemosyne

/-! ## String helpers (Python `str.lower/strip/split/upper`, `re.findall` digit
runs).  They recurse structurally over the character list so that concrete
instances evaluate inside proofs. -/

/-- Python `s.lower()`. -/
def lowerString (s : String) : String := String.mk (s.toList.map Char.toLower)

/-- Python `s.upper()`. -/
def upperString (s : String) : String := String.mk (s.toList.map Char.toUpper)

/-- Python `s.strip()` on a character list. -/
def stripChars (l : List Char) : List Char :=
  ((l.dropWhile Char.isWhitespace).reverse.dropWhile Char.isWhitespace).reverse

/-- Python `v.lower().strip()` as used by `Curator._values_are_same`. -/
def normValue (s : String) : String := String.mk (stripChars (lowerString s).toList)

/-- `Curator._values_are_same`. -/
def valuesAreSame (v1 v2 : String) : Bool := decide (normValue v1 = normValue v2)

/-- Runs of non-whitespace characters, accumulator holds the current run
reversed. -/
def splitWsAux : List Char → List Char → List String
  | [], cur => if cur.isEmpty then [] else [String.mk cur.reverse]
  | c :: rest, cur =>
    if c.isWhitespace then
      if cur.isEmpty then splitWsAux rest []
      else String.mk cur.reverse :: splitWsAux rest []
    else splitWsAux rest (c :: cur)

/-- Python `str.split()` with no argument: split on whitespace, drop empties. -/
def wordsOf (s : String) : List String := splitWsAux s.toList []

/-- Maximal runs of digit characters, accumulator holds the current run reversed. -/
def digitRunsAux : List Char → List Char → List String
  | [], cur => if cur.isEmpty then [] else [String.mk cur.reverse]
  | c :: rest, cur =>
    if c.isDigit then digitRunsAux rest (c :: cur)
    else if cur.isEmpty then digitRunsAux rest []
    else String.mk cur.reverse :: digitRunsAux rest []

/-- Python `re.findall(r'\d+', s)`. -/
def digitRuns (s : String) : List String := digitRunsAux s.toList []

def memberStr (l : List String) (x : String) : Bool := l.any (fun y => decide (y = x))

def insertDistinct (l : List String) (x : String) : List String :=
  if memberStr l x then l else l ++ [x]

/-- The distinct members of `l`, first occurrences in order (models a Python set
built from `l`, counted by its length). -/
def distinctList (l : List String) : List String := l.foldl insertDistinct []

/-- Equality of the two lists read as sets (Python `set(a) != set(b)` negated). -/
def sameStringSet (a b : List String) : Bool :=
  a.all (fun x => memberStr b x) && b.all (fun x => memberStr a x)

/-! ## Data model (`models.py`) -/

inductive MemoryType
  | preference
  | fact
  | entity
  | constraint
  | commitment
deriving DecidableEq

def MemoryType.value : MemoryType → String
  | .preference => "preference"
  | .fact => "fact"
  | .entity => "entity"
  | .constraint => "constraint"
  | .commitment => "commitment"

inductive MemoryStatus
  | active
  | decaying
  | evicted
deriving DecidableEq

inductive CuratorOp
  | add
  | update
  | delete
  | noop
deriving DecidableEq

structure MemoryObject where
  memory_id : String
  type : MemoryType := .fact
  key : String := ""
  value : String := ""
  source_turn : Nat := 0
  last_recalled_turn : Nat := 0
  heat : ℚ := 1
  confidence : ℚ := 1
  status : MemoryStatus := .active
  embed_text : String := ""
deriving DecidableEq

/-- `MemoryObject.to_prompt_fragment`. -/
def MemoryObject.promptFragment (m : MemoryObject) : String :=
  "[" ++ upperString m.type.value ++ "] " ++ m.key ++ ": " ++ m.value

/-! ## Memory store (`memory_store.py`)

The hot tier is the deque (front = most recently added, capacity 40); the warm
tier is the `_memories` dict of `WarmTier` as an insertion-ordered list; the
cold tier is the SQLite `memories` table as a row list.  The SQLite upsert
updates only the columns its `ON CONFLICT` clause names.
-/

def HOT_SIZE : Nat := 40
def HEAT_DECAY_PER_TURN : ℚ := 4/100
def HEAT_RECALL_BOOST : ℚ := 25/100
def HEAT_EVICT_THRESHOLD : ℚ := 8/100

/-- `WarmTier.upsert` on the `_memories` dict: replace in place or append. -/
def warmUpsert (m : MemoryObject) (w : List MemoryObject) : List MemoryObject :=
  if w.any (fun x => decide (x.memory_id = m.memory_id)) then
    w.map (fun x => if x.memory_id = m.memory_id then m else x)
  else w ++ [m]

/-- The column set `ColdTier.upsert`'s conflict clause rewrites; the other
columns keep the stored row's values. -/
def coldMerge (old m : MemoryObject) : MemoryObject :=
  { old with value := m.value, last_recalled_turn := m.last_recalled_turn,
             heat := m.heat, confidence := m.confidence, status := m.status }

/-- `ColdTier.upsert` (`INSERT ... ON CONFLICT(memory_id) DO UPDATE`). -/
def coldUpsert (m : MemoryObject) (c : List MemoryObject) : List MemoryObject :=
  if c.any (fun x => decide (x.memory_id = m.memory_id)) then
    c.map (fun x => if x.memory_id = m.memory_id then coldMerge x m else x)
  else c ++ [m]

structure MemoryStore where
  hot : List MemoryObject := []
  warm : List MemoryObject := []
  cold : List MemoryObject := []
deriving DecidableEq

def findById (l : List MemoryObject) (memId : String) : Option MemoryObject :=
  l.find? (fun x => decide (x.memory_id = memId))

/-- `MemoryStore.add`: hot-tier appendleft (bounded), warm upsert, cold upsert. -/
def MemoryStore.add (s : MemoryStore) (m : MemoryObject) : MemoryStore :=
  { s with hot := (m :: s.hot).take HOT_SIZE,
           warm := warmUpsert m s.warm,
           cold := coldUpsert m s.cold }

/-- `MemoryStore.update`: look up in warm then cold, rewrite value, recalled
turn and index text, upsert into both tiers; no-op on an unknown id. -/
def MemoryStore.update (s : MemoryStore) (memId : String) (newValue : String)
    (turn : Nat) : MemoryStore :=
  match (findById s.warm memId).orElse (fun _ => findById s.cold memId) with
  | none => s
  | some mem =>
    let mem' := { mem with value := newValue, last_recalled_turn := turn,
                           embed_text := mem.key ++ ": " ++ newValue }
    { s with warm := warmUpsert mem' s.warm, cold := coldUpsert mem' s.cold }

/-- `MemoryStore.delete`: remove from warm and cold. -/
def MemoryStore.delete (s : MemoryStore) (memId : String) : MemoryStore :=
  { s with warm := s.warm.filter (fun x => !(decide (x.memory_id = memId))),
           cold := s.cold.filter (fun x => !(decide (x.memory_id = memId))) }

/-- `MemoryStore.mark_recalled`: heat boost clamped at 1, forces Active. -/
def MemoryStore.markRecalled (s : MemoryStore) (memId : String) (turn : Nat) :
    MemoryStore :=
  match findById s.warm memId with
  | none => s
  | some mem =>
    let mem' := { mem with heat := min 1 (mem.heat + HEAT_RECALL_BOOST),
                           last_recalled_turn := turn, status := .active }
    { s with warm := warmUpsert mem' s.warm, cold := coldUpsert mem' s.cold }

/-- `MemoryStore.get_all_active`: warm records not Evicted. -/
def MemoryStore.getAllActive (s : MemoryStore) : List MemoryObject :=
  s.warm.filter (fun m => !(decide (m.status = .evicted)))

/-- One step of `MemoryStore.apply_decay`'s loop over the warm snapshot, with
the heat decrement taken in exact rational arithmetic.  This is faithful to the
float program except for rounding at exact decision boundaries; the
boundary-sensitive decay scenario is settled against `decayStepFP` below, which
performs the decrement and threshold comparisons in exact IEEE binary64
semantics. -/
def decayStep (turn : Nat) (acc : MemoryStore × List String) (mem : MemoryObject) :
    MemoryStore × List String :=
  let st := acc.1
  let ev := acc.2
  if mem.last_recalled_turn < turn then
    let h := max 0 (mem.heat - HEAT_DECAY_PER_TURN)
    if h < HEAT_EVICT_THRESHOLD then
      ({ st with warm := st.warm.filter (fun x => !(decide (x.memory_id = mem.memory_id))),
                 cold := st.cold.filter (fun x => !(decide (x.memory_id = mem.memory_id))) },
       ev ++ [mem.memory_id])
    else if h < 3/10 then
      let m2 := { mem with heat := h, status := MemoryStatus.decaying }
      ({ st with warm := warmUpsert m2 st.warm, cold := coldUpsert m2 st.cold }, ev)
    else
      let m2 := { mem with heat := h, status := MemoryStatus.active }
      ({ st with warm := warmUpsert m2 st.warm, cold := coldUpsert m2 st.cold }, ev)
  else acc

/-- `MemoryStore.apply_decay`: iterates over a snapshot of the warm tier,
returns the store plus the evicted ids. -/
def MemoryStore.applyDecay (s : MemoryStore) (turn : Nat) :
    MemoryStore × List String :=
  s.warm.foldl (decayStep turn) (s, [])

/-! ## Curator (`curator.py`)

`Curator._decide` consults the semantic search only through the hit list it
returns, so the ChromaDB-backed search appears as a `SearchFn` parameter; the
rest of the decision and execution logic is embedded verbatim.  Decision
`reason` strings are logging-only and omitted.
-/

def SIMILARITY_FOR_CONFLICT : ℚ := 55/100
def SIMILARITY_FOR_DUPLICATE : ℚ := 75/100

def nonContradictionPairs : List (String × String) :=
  [("vegetarian", "vegan"), ("vegan", "plant-based"), ("vegetarian", "plant-based")]

/-- Python `{new_lower, old_lower} in NON_CONTRADICTION_PAIRS`: the two-element
set equals one of the listed two-element sets. -/
def isNonContradictionPair (a b : String) : Bool :=
  nonContradictionPairs.any (fun p =>
    decide ((p.1 = a ∧ p.2 = b) ∨ (p.1 = b ∧ p.2 = a)))

/-- `Curator._is_contradiction`: synonym guard, then differing numeric-token
sets, then word-overlap ratio below 1/5. -/
def isContradiction (newVal oldVal : String) : Bool :=
  let nl := normValue newVal
  let ol := normValue oldVal
  if isNonContradictionPair nl ol then false
  else
    let newNums := digitRuns nl
    let oldNums := digitRuns ol
    if !newNums.isEmpty && !oldNums.isEmpty && !sameStringSet newNums oldNums then
      true
    else
      let nw := wordsOf nl
      let ow := wordsOf ol
      let overlap := ((distinctList nw).filter (fun w => memberStr ow w)).length
      let total := (distinctList (nw ++ ow)).length
      if 0 < total ∧ (overlap : ℚ) / (total : ℚ) < 1/5 then true else false

structure CuratorDecision where
  operation : CuratorOp
  candidate : MemoryObject
  target_id : Option String := none
deriving DecidableEq

/-- The per-batch `(key, kind)` lookup table (a Python dict, insertion-ordered). -/
abbrev KeyMap := List ((String × MemoryType) × MemoryObject)

def keyLookup (k : String × MemoryType) (table : KeyMap) : Option MemoryObject :=
  (table.find? (fun e => decide (e.1 = k))).map (fun e => e.2)

def keyInsert (k : String × MemoryType) (m : MemoryObject) (table : KeyMap) : KeyMap :=
  if table.any (fun e => decide (e.1 = k)) then
    table.map (fun e => if e.1 = k then (k, m) else e)
  else table ++ [(k, m)]

def buildKeyMap (l : List MemoryObject) : KeyMap :=
  l.foldl (fun t m => keyInsert (m.key, m.type) m t) []

/-- The semantic-search collaborator: query text and current store to scored
hits (in the code, `MemoryStore.semantic_search` over ChromaDB). -/
abbrev SearchFn := String → MemoryStore → List (MemoryObject × ℚ)

/-- The loop over semantic hits inside `Curator._decide` (check 2). -/
def scanSimilar (candidate : MemoryObject) :
    List (MemoryObject × ℚ) → Option CuratorDecision
  | [] => none
  | (ex, score) :: rest =>
    if SIMILARITY_FOR_DUPLICATE ≤ score ∧ valuesAreSame candidate.value ex.value = true then
      some ⟨.noop, candidate, some ex.memory_id⟩
    else if SIMILARITY_FOR_CONFLICT ≤ score ∧ isContradiction candidate.value ex.value = true then
      some ⟨.delete, candidate, some ex.memory_id⟩
    else scanSimilar candidate rest

/-- `Curator._decide`: exact `(key, kind)` lookup first, then the semantic
loop, defaulting to Add. -/
def decideCandidate (candidate : MemoryObject) (table : KeyMap)
    (similar : List (MemoryObject × ℚ)) : CuratorDecision :=
  match keyLookup (candidate.key, candidate.type) table with
  | some ex =>
    if valuesAreSame candidate.value ex.value then ⟨.noop, candidate, some ex.memory_id⟩
    else ⟨.update, candidate, some ex.memory_id⟩
  | none => (scanSimilar candidate similar).getD ⟨.add, candidate, none⟩

/-- `Curator._execute`. -/
def executeDecision (s : MemoryStore) (d : CuratorDecision) (turn : Nat) : MemoryStore :=
  match d.operation with
  | .add => s.add d.candidate
  | .update =>
    match d.target_id with
    | some tid => s.update tid d.candidate.value turn
    | none => s.add d.candidate
  | .delete =>
    let s' := match d.target_id with
      | some tid => s.delete tid
      | none => s
    s'.add d.candidate
  | .noop => s

/-- One iteration of `Curator.process`'s candidate loop: decide, execute, then
refresh the lookup table exactly as the code does (Add inserts the candidate,
Update rewrites the cached value, Delete and Noop leave the table untouched). -/
def processStep (searchFn : SearchFn) (turn : Nat)
    (acc : MemoryStore × KeyMap × List CuratorDecision) (candidate : MemoryObject) :
    MemoryStore × KeyMap × List CuratorDecision :=
  let st := acc.1
  let table := acc.2.1
  let ds := acc.2.2
  let similar := searchFn candidate.embed_text st
  let d := decideCandidate candidate table similar
  let st' := executeDecision st d turn
  let table' :=
    match d.operation with
    | .add => keyInsert (candidate.key, candidate.type) candidate table
    | .update =>
      match d.target_id with
      | some _ =>
        match keyLookup (candidate.key, candidate.type) table with
        | some ex => keyInsert (candidate.key, candidate.type)
            { ex with value := candidate.value } table
        | none => table
      | none => table
    | _ => table
  (st', table', ds ++ [d])

/-- `Curator.process`: build the `(key, kind)` table once from the active
records, then fold the candidate loop. -/
def curatorProcess (searchFn : SearchFn) (candidates : List MemoryObject)
    (turn : Nat) (s : MemoryStore) : List CuratorDecision × MemoryStore :=
  let out := candidates.foldl (processStep searchFn turn)
    (s, buildKeyMap s.getAllActive, ([] : List CuratorDecision))
  (out.2.2, out.1)

/-! ## Oracle / retriever (`oracle.py`) -/

def MAX_MEMORY_TOKENS : Nat := 300

/-- The `selected` dict of `Oracle.retrieve`: append unless the id is present. -/
def dedupAppend (acc : List MemoryObject) (m : MemoryObject) : List MemoryObject :=
  if acc.any (fun x => decide (x.memory_id = m.memory_id)) then acc else acc ++ [m]

/-- Step 2 of `Oracle.retrieve` for one always-inject type: every non-evicted
record of that type from the warm tier, deduplicated by id. -/
def alwaysInjectPass (s : MemoryStore) (t : MemoryType)
    (acc : List MemoryObject) : List MemoryObject :=
  (s.warm.filter (fun m => decide (m.type = t ∧ m.status ≠ .evicted))).foldl dedupAppend acc

/-- Steps 1–2 of `Oracle.retrieve`: semantic hits then the structural pass for
Constraint and Commitment. -/
def oracleSelected (searchFn : SearchFn) (query : String) (s : MemoryStore) :
    List MemoryObject :=
  let sem := (searchFn query s).foldl (fun acc p => dedupAppend acc p.1) []
  alwaysInjectPass s .commitment (alwaysInjectPass s .constraint sem)

/-- Step 3's relevance score: `heat * 0.6 + recency * 0.4`. -/
def relevanceScore (turn : Nat) (m : MemoryObject) : ℚ :=
  let recency : ℚ := 1 / (1 + ((turn : ℚ) - (m.last_recalled_turn : ℚ)) * (1/100))
  m.heat * (6/10) + recency * (4/10)

/-- Stable descending insertion: `x` goes before the first element whose score
is at most `x`'s, matching Python's stable `sorted(..., reverse=True)`. -/
def insertRanked (score : MemoryObject → ℚ) (x : MemoryObject) :
    List MemoryObject → List MemoryObject
  | [] => [x]
  | y :: ys => if score y ≤ score x then x :: y :: ys else y :: insertRanked score x ys

def sortByRelevance (score : MemoryObject → ℚ) (l : List MemoryObject) :
    List MemoryObject :=
  l.foldr (insertRanked score) []

/-- Step 4's per-record token estimate: fragment word count plus 3. -/
def tokenEstimate (m : MemoryObject) : Nat := (wordsOf m.promptFragment).length + 3

def tokenSum (l : List MemoryObject) : Nat := (l.map tokenEstimate).sum

/-- Step 4 of `Oracle.retrieve`: greedy acceptance that stops (`break`) at the
first record whose estimate would push the running total past the budget. -/
def budgetLoop : List MemoryObject → Nat → List MemoryObject × Nat
  | [], total => ([], total)
  | m :: rest, total =>
    let est := tokenEstimate m
    if MAX_MEMORY_TOKENS < total + est then ([], total)
    else
      let out := budgetLoop rest (total + est)
      (m :: out.1, out.2)

structure RetrievalResult where
  memories : List MemoryObject
  total_tokens : Nat
deriving DecidableEq

/-- The rank-sorted merged candidate list (end of step 3). -/
def oracleRanked (searchFn : SearchFn) (query : String) (turn : Nat)
    (s : MemoryStore) : List MemoryObject :=
  sortByRelevance (relevanceScore turn) (oracleSelected searchFn query s)

/-- `Oracle.retrieve`: selection, ranking, token budget, then the
`mark_recalled` pass over the accepted records. -/
def oracleRetrieve (searchFn : SearchFn) (query : String) (turn : Nat)
    (s : MemoryStore) : RetrievalResult × MemoryStore :=
  let ranked := oracleRanked searchFn query turn s
  let out := budgetLoop ranked 0
  let s' := out.1.foldl (fun st m => st.markRecalled m.memory_id turn) s
  (⟨out.1, out.2⟩, s')

/-! ## Engine orchestration (`engine.py`) -/

inductive Role
  | user
  | assistant
deriving DecidableEq

abbrev HistEntry := Role × String

def HISTORY_WINDOW : Nat := 20

/-- Python `l[-n:]`. -/
def takeLastN (n : Nat) (l : List α) : List α := l.drop (l.length - n)

/-- The history update inside `MnemosyneEngine.chat`: append the user and
assistant entries, then truncate to the window. -/
def historyStep (h : List HistEntry) (q r : String) : List HistEntry :=
  takeLastN HISTORY_WINDOW (h ++ [(Role.user, q), (Role.assistant, r)])

/-- The history after a sequence of turns, each a (query, response) pair. -/
def historyAfter (pairs : List (String × String)) : List HistEntry :=
  pairs.foldl (fun h p => historyStep h p.1 p.2) []

/-- The untruncated transcript of the same turns. -/
def renderLog (pairs : List (String × String)) : List HistEntry :=
  pairs.foldr (fun p acc => (Role.user, p.1) :: (Role.assistant, p.2) :: acc) []

/-- Engine state: the durable path is abstracted to whether it is a persistent
file (`db_path != ":memory:"`); components other than the store hold no state
the studied claims read. -/
structure EngineState where
  dbPersistent : Bool
  store : MemoryStore
  turn_number : Nat
  history : List HistEntry
deriving DecidableEq

/-- `MemoryStore.__init__` given the rows persisted at the durable path: fresh
hot tier, warm tier re-indexed from the cold tier's active rows. -/
def mkMemoryStore (persisted : List MemoryObject) : MemoryStore :=
  { hot := [],
    warm := (persisted.filter
      (fun m => decide (m.status = .active ∨ m.status = .decaying))).foldl
      (fun w m => warmUpsert m w) [],
    cold := persisted }

/-- `MnemosyneEngine.reset`: rebuild the store at the same durable path (whose
rows survive when the path is a file and vanish with `:memory:`), zero the turn
counter, clear the history. -/
def engineReset (e : EngineState) : EngineState :=
  { e with store := mkMemoryStore (if e.dbPersistent then e.store.cold else []),
           turn_number := 0, history := [] }

/-! ## The spec's heat/status invariant (§3 Invariants) -/

/-- The spec's status-from-heat function: Active iff heat ≥ 0.3, Decaying iff
0.08 ≤ heat < 0.3, Evicted iff heat < 0.08. -/
def statusOfHeat (h : ℚ) : MemoryStatus :=
  if h < HEAT_EVICT_THRESHOLD then .evicted
  else if h < 3/10 then .decaying
  else .active

/-- A stored record is well-formed: heat clamped to [0,1], status the pure
function of heat, and never the Evicted status (evicted records are deleted,
not stored). -/
def recordWF (m : MemoryObject) : Prop :=
  0 ≤ m.heat ∧ m.heat ≤ 1 ∧ m.status = statusOfHeat m.heat ∧ m.status ≠ .evicted

instance : DecidablePred recordWF := fun m => by unfold recordWF; infer_instance

/-- The invariant over the searchable (warm) and durable (cold) tiers. -/
def storeWF (s : MemoryStore) : Prop :=
  (∀ m ∈ s.warm, recordWF m) ∧ (∀ m ∈ s.cold, recordWF m)

instance (s : MemoryStore) : Decidable (storeWF s) := by unfold storeWF; infer_instance

/-! ## Concrete scenario inputs -/

def emptyStore : MemoryStore := {}

/-- The spec's stored dietary constraint (C1 scenario). -/
def dietRecord : MemoryObject :=
  { memory_id := "mem_diet", type := .constraint, key := "diet", value := "vegetarian",
    embed_text := "diet: vegetarian" }

/-- The spec's arriving dietary candidate (C1 scenario). -/
def veganCandidate : MemoryObject :=
  { memory_id := "mem_cand", type := .constraint, key := "diet", value := "vegan",
    embed_text := "diet: vegan" }

def dietTable : KeyMap := [(("diet", MemoryType.constraint), dietRecord)]

/-- A stored record normalizing equal to `candC2`'s value under another key. -/
def recA : MemoryObject :=
  { memory_id := "mem_A", type := .constraint, key := "phone_pref", value := "call after 5pm",
    embed_text := "phone_pref: call after 5pm" }

/-- A stored record with a conflicting numeric token. -/
def recB : MemoryObject :=
  { memory_id := "mem_B", type := .constraint, key := "contact_time", value := "call after 8pm",
    embed_text := "contact_time: call after 8pm" }

/-- A candidate with no exact key match (C2 scenarios). -/
def candC2 : MemoryObject :=
  { memory_id := "mem_C", type := .constraint, key := "call_time", value := "call after 5pm",
    embed_text := "call_time: call after 5pm" }

/-- A one-record store holding `recB`. -/
def storeB : MemoryStore := { hot := [recB], warm := [recB], cold := [recB] }

/-- One of 21 constraint records whose fragments are 12 words (15 tokens) each;
20 of them fill the 300-token budget exactly (C3 counterexample). -/
def cRec (i : Nat) : MemoryObject :=
  { memory_id := "c" ++ Nat.repr i, type := .constraint, key := "k",
    value := "w w w w w w w w w w", embed_text := "" }

def store21 : MemoryStore :=
  { hot := [], warm := (List.range 21).map (fun i => cRec (i + 1)),
    cold := (List.range 21).map (fun i => cRec (i + 1)) }

/-- The stored record the first C4 candidate contradicts. -/
def oldRec : MemoryObject :=
  { memory_id := "mem_old", type := .constraint, key := "contact_time",
    value := "call after 5pm", embed_text := "contact_time: call after 5pm" }

/-- First C4 candidate: cross-key numeric contradiction with `oldRec`. -/
def cand1 : MemoryObject :=
  { memory_id := "mem_c1", type := .constraint, key := "call_pref",
    value := "call after 8pm", embed_text := "call_pref: call after 8pm" }

/-- Second C4 candidate: shares `oldRec`'s `(key, kind)` pair. -/
def cand2 : MemoryObject :=
  { memory_id := "mem_c2", type := .constraint, key := "contact_time",
    value := "call after 9pm", embed_text := "contact_time: call after 9pm" }

def storeC4 : MemoryStore := { hot := [oldRec], warm := [oldRec], cold := [oldRec] }

/-- Search results for the C4 batch: the first candidate's query finds the
contradicting record above the conflict threshold. -/
def searchC4 : SearchFn := fun q _ =>
  if q = cand1.embed_text then [(oldRec, 3/5)] else []

/-- A record born with heat 1.0 and never recalled (C6 scenario). -/
def decayRec : MemoryObject :=
  { memory_id := "m_decay", type := .fact, key := "k", value := "v", embed_text := "k: v" }

def decayStore0 : MemoryStore := { hot := [decayRec], warm := [decayRec], cold := [decayRec] }

/-! ### IEEE binary64 decay model (C6 scenario)

Python floats are IEEE binary64, and `apply_decay` iterates
`mem.heat = max(0.0, mem.heat - 0.04)` in that arithmetic, whose accumulated
rounding decides the eviction boundary.  Binary64 is modelled exactly: every
value occurring here is the dyadic rational it denotes, the source's float
literals are rounded once at parse, and each subtraction rounds its exact
difference to the nearest 53-bit significand with ties to even — exact IEEE
semantics on this normal, non-overflowing range. -/

/-- `2^e` as a rational, for an integer exponent. -/
def pow2 (e : ℤ) : ℚ :=
  if 0 ≤ e then ((2 ^ e.toNat : ℕ) : ℚ) else 1 / ((2 ^ (-e).toNat : ℕ) : ℚ)

/-- The binary exponent of a positive rational: the `e` with
`2^e ≤ x < 2^(e+1)`, searched over a range covering every value that occurs in
the decay scenario. -/
def findExp (x : ℚ) : ℤ :=
  (((List.range 16).map (fun i => (i : ℤ) - 8)).find?
    (fun e => decide (pow2 e ≤ x ∧ x < pow2 (e + 1)))).getD 0

/-- Floor of a nonnegative rational. -/
def floorPos (m : ℚ) : ℕ := m.num.toNat / m.den

/-- Round a positive scaled mantissa to the nearest integer, ties to even. -/
def roundHalfEven (m : ℚ) : ℕ :=
  let f := floorPos m
  let frac := m - (f : ℚ)
  if frac < 1/2 then f
  else if 1/2 < frac then f + 1
  else if f % 2 = 0 then f else f + 1

/-- Round a nonnegative rational to the nearest IEEE binary64 value (53-bit
significand, round to nearest, ties to even). -/
def fp64Round (x : ℚ) : ℚ :=
  if x ≤ 0 then 0
  else
    let e := findExp x
    let scale := pow2 (e - 52)
    (roundHalfEven (x / scale) : ℚ) * scale

/-- Binary64 subtraction: the exact difference, rounded. -/
def fp64Sub (a b : ℚ) : ℚ := fp64Round (a - b)

/-- The binary64 value of the source literal `0.04` (`HEAT_DECAY_PER_TURN`). -/
def HEAT_DECAY_PER_TURN_FP : ℚ := fp64Round HEAT_DECAY_PER_TURN

/-- The binary64 value of the source literal `0.08` (`HEAT_EVICT_THRESHOLD`). -/
def HEAT_EVICT_THRESHOLD_FP : ℚ := fp64Round HEAT_EVICT_THRESHOLD

/-- The binary64 value of the source literal `0.3` (the Decaying bound). -/
def DECAYING_BOUND_FP : ℚ := fp64Round (3/10)

/-- `decayStep` with the heat decrement and threshold comparisons performed on
binary64 values, as the Python interpreter executes them; all other logic
identical. -/
def decayStepFP (turn : Nat) (acc : MemoryStore × List String) (mem : MemoryObject) :
    MemoryStore × List String :=
  let st := acc.1
  let ev := acc.2
  if mem.last_recalled_turn < turn then
    let h := max 0 (fp64Sub mem.heat HEAT_DECAY_PER_TURN_FP)
    if h < HEAT_EVICT_THRESHOLD_FP then
      ({ st with warm := st.warm.filter (fun x => !(decide (x.memory_id = mem.memory_id))),
                 cold := st.cold.filter (fun x => !(decide (x.memory_id = mem.memory_id))) },
       ev ++ [mem.memory_id])
    else if h < DECAYING_BOUND_FP then
      let m2 := { mem with heat := h, status := MemoryStatus.decaying }
      ({ st with warm := warmUpsert m2 st.warm, cold := coldUpsert m2 st.cold }, ev)
    else
      let m2 := { mem with heat := h, status := MemoryStatus.active }
      ({ st with warm := warmUpsert m2 st.warm, cold := coldUpsert m2 st.cold }, ev)
  else acc

/-- `MemoryStore.apply_decay` over binary64 heats. -/
def MemoryStore.applyDecayFP (s : MemoryStore) (turn : Nat) :
    MemoryStore × List String :=
  s.warm.foldl (decayStepFP turn) (s, [])

/-- The store after `n` binary64 decay sweeps, the sweep for turn `i` run at
turn `i`. -/
def fpSweepState : Nat → MemoryStore
  | 0 => decayStore0
  | n + 1 => ((fpSweepState n).applyDecayFP (n + 1)).1

/-- The ids evicted by the `n`-th binary64 decay sweep. -/
def fpSweepEvictedAt : Nat → List String
  | 0 => []
  | n + 1 => ((fpSweepState n).applyDecayFP (n + 1)).2

/-- A durable row surviving at a persistent path across `reset` (C8 scenario). -/
def recPersisted : MemoryObject :=
  { memory_id := "mem_p", type := .fact, key := "name", value := "arjun",
    embed_text := "name: arjun" }

/-- An engine on a persistent path, mid-session (C8 scenario). -/
def engineP : EngineState :=
  { dbPersistent := true,
    store := { hot := [recPersisted], warm := [recPersisted], cold := [recPersisted] },
    turn_number := 7,
    history := [(Role.user, "hi"), (Role.assistant, "hello")] }

/-- Twelve turns' worth of (query, response) pairs (C9 witness input). -/
def pairs12 : List (String × String) :=
  (List.range 12).map (fun i => ("q" ++ Nat.repr i, "r" ++ Nat.repr i))

/-! ## Upsert idempotence lemmas -/

lemma warmUpsert_idem (m : MemoryObject) (w : List MemoryObject) :
    warmUpsert m (warmUpsert m w) = warmUpsert m w := by
  unfold warmUpsert
  by_cases h : w.any (fun x => decide (x.memory_id = m.memory_id))
  · simp only [h, if_true]
    obtain ⟨x, hx, hid⟩ := List.any_eq_true.mp h
    rw [decide_eq_true_eq] at hid
    have hm : m ∈ w.map (fun x => if x.memory_id = m.memory_id then m else x) :=
      List.mem_map.mpr ⟨x, hx, by simp [hid]⟩
    have hany : (w.map (fun x => if x.memory_id = m.memory_id then m else x)).any
        (fun x => decide (x.memory_id = m.memory_id)) = true :=
      List.any_eq_true.mpr ⟨m, hm, by simp⟩
    rw [if_pos hany, List.map_map]
    refine List.map_congr_left (fun x _ => ?_)
    by_cases hx' : x.memory_id = m.memory_id <;> simp [Function.comp, hx']
  · simp only [h, Bool.false_eq_true, if_false]
    have hany : (w ++ [m]).any (fun x => decide (x.memory_id = m.memory_id)) = true := by
      rw [List.any_append]
      simp
    rw [if_pos hany, List.map_append]
    have hmap : w.map (fun x => if x.memory_id = m.memory_id then m else x) = w := by
      have h1 : w.map (fun x => if x.memory_id = m.memory_id then m else x) = w.map id := by
        refine List.map_congr_left (fun x hx => ?_)
        have hne : ¬ (x.memory_id = m.memory_id) := by
          intro hc
          exact (List.any_eq_false.mp (Bool.not_eq_true _ ▸ h) x hx) (by simpa using hc)
        simp [hne]
      rw [h1, List.map_id]
    simp [hmap]

lemma coldMerge_merge (x m : MemoryObject) :
    coldMerge (coldMerge x m) m = coldMerge x m := rfl

lemma coldUpsert_idem (m : MemoryObject) (c : List MemoryObject) :
    coldUpsert m (coldUpsert m c) = coldUpsert m c := by
  unfold coldUpsert
  by_cases h : c.any (fun x => decide (x.memory_id = m.memory_id))
  · simp only [h, if_true]
    obtain ⟨x, hx, hid⟩ := List.any_eq_true.mp h
    rw [decide_eq_true_eq] at hid
    have hm : coldMerge x m ∈ c.map (fun x => if x.memory_id = m.memory_id then coldMerge x m else x) :=
      List.mem_map.mpr ⟨x, hx, by simp [hid]⟩
    have hany : (c.map (fun x => if x.memory_id = m.memory_id then coldMerge x m else x)).any
        (fun x => decide (x.memory_id = m.memory_id)) = true :=
      List.any_eq_true.mpr ⟨coldMerge x m, hm, by simp [coldMerge, hid]⟩
    rw [if_pos hany, List.map_map]
    refine List.map_congr_left (fun x _ => ?_)
    by_cases hx' : x.memory_id = m.memory_id <;> simp [Function.comp, coldMerge, hx']
  · simp only [h, Bool.false_eq_true, if_false]
    have hany : (c ++ [m]).any (fun x => decide (x.memory_id = m.memory_id)) = true := by
      rw [List.any_append]
      simp
    rw [if_pos hany, List.map_append]
    have hmap : c.map (fun x => if x.memory_id = m.memory_id then coldMerge x m else x) = c := by
      have h1 : c.map (fun x => if x.memory_id = m.memory_id then coldMerge x m else x)
          = c.map id := by
        refine List.map_congr_left (fun x hx => ?_)
        have hne : ¬ (x.memory_id = m.memory_id) := by
          intro hc
          exact (List.any_eq_false.mp (Bool.not_eq_true _ ▸ h) x hx) (by simpa using hc)
        simp [hne]
      rw [h1, List.map_id]
    have hm2 : coldMerge m m = m := rfl
    rw [hmap]
    simp [hm2]

/-! ## Word-set and contradiction lemmas -/

lemma memberStr_iff (l : List String) (x : String) : memberStr l x = true ↔ x ∈ l := by
  simp [memberStr, List.any_eq_true]

lemma sameStringSet_refl (l : List String) : sameStringSet l l = true := by
  have h : l.all (fun x => memberStr l x) = true :=
    List.all_eq_true.mpr (fun x hx => (memberStr_iff l x).mpr hx)
  simp [sameStringSet, h]

lemma mem_insertDistinct (l : List String) (y x : String) :
    x ∈ insertDistinct l y ↔ x ∈ l ∨ x = y := by
  unfold insertDistinct
  by_cases h : memberStr l y
  · simp only [h, if_true]
    exact ⟨Or.inl, fun hx => hx.elim id (fun he => he ▸ (memberStr_iff l y).mp h)⟩
  · simp [h, List.mem_append]

lemma mem_foldl_insertDistinct (l : List String) :
    ∀ (acc : List String) (x : String),
      x ∈ l.foldl insertDistinct acc ↔ x ∈ acc ∨ x ∈ l := by
  induction l with
  | nil => simp
  | cons y t ih =>
    intro acc x
    rw [List.foldl_cons, ih, mem_insertDistinct]
    simp [List.mem_cons]
    tauto

lemma mem_distinctList (l : List String) (x : String) : x ∈ distinctList l ↔ x ∈ l := by
  unfold distinctList
  rw [mem_foldl_insertDistinct]
  simp

lemma foldl_insertDistinct_absorb (l : List String) :
    ∀ acc : List String, (∀ x ∈ l, x ∈ acc) → l.foldl insertDistinct acc = acc := by
  induction l with
  | nil => intro acc _; rfl
  | cons y t ih =>
    intro acc hacc
    rw [List.foldl_cons]
    have hy : insertDistinct acc y = acc := by
      unfold insertDistinct
      rw [if_pos ((memberStr_iff acc y).mpr (hacc y (by simp)))]
    rw [hy]
    exact ih acc (fun x hx => hacc x (by simp [hx]))

lemma distinctList_append_self (l : List String) : distinctList (l ++ l) = distinctList l := by
  unfold distinctList
  rw [List.foldl_append]
  exact foldl_insertDistinct_absorb l _
    (fun x hx => (mem_foldl_insertDistinct l [] x).mpr (Or.inr hx))

/-- Two values with equal normal forms are never judged contradictory: the
numeric-token sets coincide and the word overlap is total. -/
lemma valuesAreSame_not_contradiction (a b : String)
    (h : valuesAreSame a b = true) : isContradiction a b = false := by
  have hn : normValue a = normValue b := by simpa [valuesAreSame] using h
  unfold isContradiction
  rw [hn]
  by_cases hp : isNonContradictionPair (normValue b) (normValue b) = true
  · simp [hp]
  · rw [if_neg hp]
    rw [if_neg (by simp [sameStringSet_refl])]
    have hfil : (distinctList (wordsOf (normValue b))).filter
        (fun w => memberStr (wordsOf (normValue b)) w) = distinctList (wordsOf (normValue b)) :=
      List.filter_eq_self.mpr (fun x hx =>
        (memberStr_iff _ _).mpr ((mem_distinctList _ _).mp hx))
    rw [if_neg ?_]
    rintro ⟨hpos, hlt⟩
    rw [hfil] at hlt
    rw [distinctList_append_self] at hlt hpos
    have hne : ((distinctList (wordsOf (normValue b))).length : ℚ) ≠ 0 := by
      exact_mod_cast Nat.pos_iff_ne_zero.mp hpos
    rw [div_self hne] at hlt
    norm_num at hlt

/-! ## Semantic-loop lemmas -/

lemma scanSimilar_append_of_no_trigger (c : MemoryObject) (pre l : List (MemoryObject × ℚ))
    (hpre : ∀ p ∈ pre,
      ¬(SIMILARITY_FOR_DUPLICATE ≤ p.2 ∧ valuesAreSame c.value p.1.value = true) ∧
      ¬(SIMILARITY_FOR_CONFLICT ≤ p.2 ∧ isContradiction c.value p.1.value = true)) :
    scanSimilar c (pre ++ l) = scanSimilar c l := by
  induction pre with
  | nil => rfl
  | cons p t ih =>
    obtain ⟨ex, sc⟩ := p
    have h1 := (hpre (ex, sc) (by simp)).1
    have h2 := (hpre (ex, sc) (by simp)).2
    show scanSimilar c ((ex, sc) :: (t ++ l)) = _
    simp only [scanSimilar]
    rw [if_neg h1, if_neg h2]
    exact ih (fun p hp => hpre p (List.mem_cons_of_mem _ hp))

lemma filter_not_length_add (p : MemoryObject → Bool) (l : List MemoryObject) :
    (l.filter (fun x => !(p x))).length + (l.filter p).length = l.length := by
  induction l with
  | nil => rfl
  | cons x t ih =>
    by_cases h : p x = true <;> simp [List.filter, h] <;> omega

/-! ## Token-budget lemmas -/

lemma tokenSum_cons (x : MemoryObject) (l : List MemoryObject) :
    tokenSum (x :: l) = tokenEstimate x + tokenSum l := by
  simp [tokenSum]

lemma budgetLoop_spec (l : List MemoryObject) :
    ∀ t : Nat, t ≤ MAX_MEMORY_TOKENS →
      (budgetLoop l t).2 = t + tokenSum (budgetLoop l t).1 ∧
      (budgetLoop l t).2 ≤ MAX_MEMORY_TOKENS ∧
      ∃ k, (budgetLoop l t).1 = l.take k ∧
        ∀ m rest, l.drop k = m :: rest →
          MAX_MEMORY_TOKENS < t + tokenSum (l.take k) + tokenEstimate m := by
  induction l with
  | nil =>
    intro t ht
    refine ⟨by simp [budgetLoop, tokenSum], by simpa [budgetLoop] using ht,
      0, by simp [budgetLoop], ?_⟩
    intro m rest hdrop
    simp at hdrop
  | cons x xs ih =>
    intro t ht
    by_cases hb : MAX_MEMORY_TOKENS < t + tokenEstimate x
    · have hbl : budgetLoop (x :: xs) t = ([], t) := by
        simp only [budgetLoop]
        rw [if_pos hb]
      rw [hbl]
      refine ⟨by simp [tokenSum], by simpa using ht, 0, by simp, ?_⟩
      intro m rest hdrop
      rw [List.drop_zero] at hdrop
      injection hdrop with hm _
      subst hm
      simpa [tokenSum] using hb
    · have hle : t + tokenEstimate x ≤ MAX_MEMORY_TOKENS := Nat.not_lt.mp hb
      obtain ⟨h1, h2, k, hk, hnext⟩ := ih (t + tokenEstimate x) hle
      have hbl : budgetLoop (x :: xs) t =
          (x :: (budgetLoop xs (t + tokenEstimate x)).1,
            (budgetLoop xs (t + tokenEstimate x)).2) := by
        simp only [budgetLoop]
        rw [if_neg hb]
      rw [hbl]
      refine ⟨?_, h2, k + 1, ?_, ?_⟩
      · rw [h1, tokenSum_cons]
        omega
      · rw [List.take_succ_cons, hk]
      · intro m rest hdrop
        rw [List.drop_succ_cons] at hdrop
        have hlt := hnext m rest hdrop
        rw [List.take_succ_cons, tokenSum_cons]
        omega

/-! ## History-window lemmas -/

lemma renderLog_cons (p : String × String) (l : List (String × String)) :
    renderLog (p :: l) = (Role.user, p.1) :: (Role.assistant, p.2) :: renderLog l := rfl

lemma renderLog_append (a b : List (String × String)) :
    renderLog (a ++ b) = renderLog a ++ renderLog b := by
  induction a with
  | nil => rfl
  | cons p t ih => simp [renderLog_cons, ih]

lemma renderLog_length (l : List (String × String)) :
    (renderLog l).length = 2 * l.length := by
  induction l with
  | nil => rfl
  | cons p t ih =>
    rw [renderLog_cons]
    simp only [List.length_cons, ih]
    omega

lemma renderLog_drop :
    ∀ (k : Nat) (l : List (String × String)),
      renderLog (l.drop k) = (renderLog l).drop (2 * k) := by
  intro k
  induction k with
  | zero => intro l; simp
  | succ n ih =>
    intro l
    cases l with
    | nil => simp [renderLog]
    | cons p t =>
      rw [List.drop_succ_cons, ih t, renderLog_cons]
      have h2 : 2 * (n + 1) = 2 * n + 1 + 1 := by omega
      rw [h2, List.drop_succ_cons, List.drop_succ_cons]

lemma takeLastN_append_absorb (n : Nat) (xs ys : List α) :
    takeLastN n (takeLastN n xs ++ ys) = takeLastN n (xs ++ ys) := by
  unfold takeLastN
  rw [List.drop_append_eq_append_drop, List.drop_append_eq_append_drop, List.drop_drop,
    List.length_append, List.length_append, List.length_drop]
  congr 1
  · congr 1
    omega
  · congr 1
    omega

lemma historyAfter_spec (pairs : List (String × String)) :
    historyAfter pairs = takeLastN HISTORY_WINDOW (renderLog pairs) := by
  induction pairs using List.reverseRecOn with
  | nil => rfl
  | append_singleton ps p ih =>
    unfold historyAfter at ih ⊢
    rw [List.foldl_append, List.foldl_cons, List.foldl_nil, ih]
    show takeLastN HISTORY_WINDOW
      (takeLastN HISTORY_WINDOW (renderLog ps) ++ [(Role.user, p.1), (Role.assistant, p.2)]) = _
    rw [takeLastN_append_absorb, renderLog_append]
    rfl

/-! ## Retrieval-selection lemmas -/

lemma mem_foldl_dedupAppend_of_mem (l : List MemoryObject) :
    ∀ (acc : List MemoryObject) (x : MemoryObject), x ∈ acc →
      x ∈ l.foldl dedupAppend acc := by
  induction l with
  | nil => intro acc x hx; exact hx
  | cons y t ih =>
    intro acc x hx
    rw [List.foldl_cons]
    refine ih _ x ?_
    unfold dedupAppend
    by_cases h : acc.any (fun z => decide (z.memory_id = y.memory_id)) = true
    · rw [if_pos h]; exact hx
    · rw [if_neg h]; exact List.mem_append_left _ hx

lemma foldl_dedupAppend_subset (l : List MemoryObject) :
    ∀ (acc : List MemoryObject) (x : MemoryObject),
      x ∈ l.foldl dedupAppend acc → x ∈ acc ∨ x ∈ l := by
  induction l with
  | nil => intro acc x hx; exact Or.inl hx
  | cons y t ih =>
    intro acc x hx
    rw [List.foldl_cons] at hx
    rcases ih _ x hx with h1 | h2
    · unfold dedupAppend at h1
      by_cases h : acc.any (fun z => decide (z.memory_id = y.memory_id)) = true
      · rw [if_pos h] at h1
        exact Or.inl h1
      · rw [if_neg h] at h1
        rcases List.mem_append.mp h1 with ha | hy
        · exact Or.inl ha
        · exact Or.inr (by simp [List.mem_singleton.mp hy])
    · exact Or.inr (List.mem_cons_of_mem _ h2)

lemma foldl_dedupAppend_mem (l : List MemoryObject) :
    ∀ (acc : List MemoryObject) (r : MemoryObject), r ∈ l →
      (∀ x ∈ l, x.memory_id = r.memory_id → x = r) →
      (∀ x ∈ acc, x.memory_id = r.memory_id → x = r) →
      r ∈ l.foldl dedupAppend acc := by
  induction l with
  | nil => intro acc r hr _ _; cases hr
  | cons y t ih =>
    intro acc r hr huniq_l huniq_acc
    rw [List.foldl_cons]
    rcases List.mem_cons.mp hr with hy | ht
    · subst hy
      refine mem_foldl_dedupAppend_of_mem t _ r ?_
      unfold dedupAppend
      by_cases h : acc.any (fun z => decide (z.memory_id = r.memory_id)) = true
      · rw [if_pos h]
        obtain ⟨x, hxa, hxid⟩ := List.any_eq_true.mp h
        rw [decide_eq_true_eq] at hxid
        exact (huniq_acc x hxa hxid) ▸ hxa
      · rw [if_neg h]
        simp
    · refine ih _ r ht (fun x hx => huniq_l x (List.mem_cons_of_mem _ hx)) ?_
      intro x hx
      unfold dedupAppend at hx
      by_cases h : acc.any (fun z => decide (z.memory_id = y.memory_id)) = true
      · rw [if_pos h] at hx
        exact huniq_acc x hx
      · rw [if_neg h] at hx
        rcases List.mem_append.mp hx with ha | hy
        · exact huniq_acc x ha
        · rw [List.mem_singleton.mp hy]
          exact huniq_l y (by simp)

lemma sem_fold_eq (hits : List (MemoryObject × ℚ)) :
    ∀ acc : List MemoryObject,
      hits.foldl (fun acc p => dedupAppend acc p.1) acc
        = (hits.map (fun p => p.1)).foldl dedupAppend acc := by
  induction hits with
  | nil => intro acc; rfl
  | cons p t ih => intro acc; simp [ih]

/-- Every non-evicted always-inject record of the warm tier reaches the merged
selection, given unique warm ids and search hits drawn from the warm tier. -/
lemma mem_oracleSelected (searchFn : SearchFn) (query : String) (s : MemoryStore)
    (r : MemoryObject)
    (hids : (s.warm.map (fun m => m.memory_id)).Nodup)
    (hsearch : ∀ p ∈ searchFn query s, p.1 ∈ s.warm)
    (hr : r ∈ s.warm)
    (htype : r.type = MemoryType.constraint ∨ r.type = MemoryType.commitment)
    (hst : r.status ≠ MemoryStatus.evicted) :
    r ∈ oracleSelected searchFn query s := by
  have huniq : ∀ x ∈ s.warm, ∀ y ∈ s.warm, x.memory_id = y.memory_id → x = y :=
    fun x hx y hy h => List.inj_on_of_nodup_map hids hx hy h
  unfold oracleSelected alwaysInjectPass
  rw [sem_fold_eq]
  set sem := ((searchFn query s).map (fun p => p.1)).foldl dedupAppend [] with hsemdef
  have hsem_sub : ∀ x ∈ sem, x ∈ s.warm := by
    intro x hx
    rcases foldl_dedupAppend_subset _ _ _ hx with h0 | h1
    · cases h0
    · obtain ⟨p, hp, hpe⟩ := List.mem_map.mp h1
      exact hpe ▸ hsearch p hp
  set lc := s.warm.filter
    (fun m => decide (m.type = MemoryType.constraint ∧ m.status ≠ MemoryStatus.evicted)) with hlcdef
  set lm := s.warm.filter
    (fun m => decide (m.type = MemoryType.commitment ∧ m.status ≠ MemoryStatus.evicted)) with hlmdef
  have hlc_sub : ∀ x ∈ lc, x ∈ s.warm := fun x hx => List.mem_of_mem_filter hx
  have hlm_sub : ∀ x ∈ lm, x ∈ s.warm := fun x hx => List.mem_of_mem_filter hx
  have hc1_sub : ∀ x ∈ lc.foldl dedupAppend sem, x ∈ s.warm := by
    intro x hx
    rcases foldl_dedupAppend_subset _ _ _ hx with h0 | h1
    · exact hsem_sub x h0
    · exact hlc_sub x h1
  rcases htype with hc | hm
  · have hrlc : r ∈ lc := List.mem_filter.mpr ⟨hr, by simp [hc, hst]⟩
    refine mem_foldl_dedupAppend_of_mem lm _ r ?_
    exact foldl_dedupAppend_mem lc sem r hrlc
      (fun x hx h => huniq x (hlc_sub x hx) r hr h)
      (fun x hx h => huniq x (hsem_sub x hx) r hr h)
  · have hrlm : r ∈ lm := List.mem_filter.mpr ⟨hr, by simp [hm, hst]⟩
    exact foldl_dedupAppend_mem lm _ r hrlm
      (fun x hx h => huniq x (hlm_sub x hx) r hr h)
      (fun x hx h => huniq x (hc1_sub x hx) r hr h)

lemma insertRanked_perm (score : MemoryObject → ℚ) (x : MemoryObject) (l : List MemoryObject) :
    (insertRanked score x l).Perm (x :: l) := by
  induction l with
  | nil => exact List.Perm.refl _
  | cons y t ih =>
    simp only [insertRanked]
    by_cases h : score y ≤ score x
    · rw [if_pos h]
    · rw [if_neg h]
      exact (ih.cons y).trans (List.Perm.swap x y t)

lemma sortByRelevance_perm (score : MemoryObject → ℚ) (l : List MemoryObject) :
    (sortByRelevance score l).Perm l := by
  induction l with
  | nil => exact List.Perm.refl _
  | cons y t ih =>
    show (insertRanked score y (sortByRelevance score t)).Perm (y :: t)
    exact (insertRanked_perm score y _).trans (ih.cons y)

lemma budgetLoop_all (l : List MemoryObject) :
    ∀ t : Nat, t + tokenSum l ≤ MAX_MEMORY_TOKENS → (budgetLoop l t).1 = l := by
  induction l with
  | nil => intro t _; rfl
  | cons x xs ih =>
    intro t h
    rw [tokenSum_cons] at h
    have hb : ¬ (MAX_MEMORY_TOKENS < t + tokenEstimate x) := by omega
    simp only [budgetLoop]
    rw [if_neg hb]
    exact congrArg (fun l => x :: l) (ih (t + tokenEstimate x) (by omega))

/-! ## Heat/status invariant lemmas -/

lemma recordWF_heat_lb (m : MemoryObject) (h : recordWF m) :
    HEAT_EVICT_THRESHOLD ≤ m.heat := by
  by_contra hlt
  push_neg at hlt
  have hev : m.status = MemoryStatus.evicted := by
    rw [h.2.2.1]
    unfold statusOfHeat
    rw [if_pos hlt]
  exact h.2.2.2 hev

lemma warmUpsert_wf (m : MemoryObject) (w : List MemoryObject)
    (hm : recordWF m) (hw : ∀ x ∈ w, recordWF x) :
    ∀ x ∈ warmUpsert m w, recordWF x := by
  intro x hx
  unfold warmUpsert at hx
  by_cases h : w.any (fun z => decide (z.memory_id = m.memory_id)) = true
  · rw [if_pos h] at hx
    obtain ⟨y, hy, hye⟩ := List.mem_map.mp hx
    by_cases hy' : y.memory_id = m.memory_id
    · rw [if_pos hy'] at hye
      exact hye ▸ hm
    · rw [if_neg hy'] at hye
      exact hye ▸ hw y hy
  · rw [if_neg h] at hx
    rcases List.mem_append.mp hx with h1 | h2
    · exact hw x h1
    · exact (List.mem_singleton.mp h2) ▸ hm

lemma coldMerge_wf (old m : MemoryObject) (hm : recordWF m) :
    recordWF (coldMerge old m) := hm

lemma coldUpsert_wf (m : MemoryObject) (c : List MemoryObject)
    (hm : recordWF m) (hc : ∀ x ∈ c, recordWF x) :
    ∀ x ∈ coldUpsert m c, recordWF x := by
  intro x hx
  unfold coldUpsert at hx
  by_cases h : c.any (fun z => decide (z.memory_id = m.memory_id)) = true
  · rw [if_pos h] at hx
    obtain ⟨y, hy, hye⟩ := List.mem_map.mp hx
    by_cases hy' : y.memory_id = m.memory_id
    · rw [if_pos hy'] at hye
      exact hye ▸ coldMerge_wf y m hm
    · rw [if_neg hy'] at hye
      exact hye ▸ hc y hy
  · rw [if_neg h] at hx
    rcases List.mem_append.mp hx with h1 | h2
    · exact hc x h1
    · exact (List.mem_singleton.mp h2) ▸ hm

lemma update_wf (s : MemoryStore) (hs : storeWF s) (memId v : String) (turn : Nat) :
    storeWF (s.update memId v turn) := by
  unfold MemoryStore.update
  cases horelse : (findById s.warm memId).orElse (fun _ => findById s.cold memId) with
  | none => exact hs
  | some mem =>
    have hmem : mem ∈ s.warm ∨ mem ∈ s.cold := by
      cases hw : findById s.warm memId with
      | some m' =>
        rw [hw] at horelse
        have : m' = mem := by
          simpa [Option.orElse] using horelse
        exact Or.inl (this ▸ List.mem_of_find?_eq_some hw)
      | none =>
        rw [hw] at horelse
        have : findById s.cold memId = some mem := by
          simpa [Option.orElse] using horelse
        exact Or.inr (List.mem_of_find?_eq_some this)
    have hwf : recordWF mem := hmem.elim (fun h => hs.1 mem h) (fun h => hs.2 mem h)
    have hwf' : recordWF { mem with value := v, last_recalled_turn := turn, embed_text := mem.key ++ ": " ++ v } := hwf
    exact ⟨fun x hx => warmUpsert_wf _ _ hwf' hs.1 x hx,
           fun x hx => coldUpsert_wf _ _ hwf' hs.2 x hx⟩

lemma markRecalled_wf (s : MemoryStore) (hs : storeWF s) (memId : String) (turn : Nat) :
    storeWF (s.markRecalled memId turn) := by
  unfold MemoryStore.markRecalled
  cases hf : findById s.warm memId with
  | none => exact hs
  | some mem =>
    have hmem : mem ∈ s.warm := List.mem_of_find?_eq_some hf
    have hwf : recordWF mem := hs.1 mem hmem
    have hlb : HEAT_EVICT_THRESHOLD ≤ mem.heat := recordWF_heat_lb mem hwf
    have h0 : 0 ≤ min 1 (mem.heat + HEAT_RECALL_BOOST) := by
      apply le_min
      · norm_num
      · have := hwf.1
        unfold HEAT_RECALL_BOOST
        linarith
    have h1 : min 1 (mem.heat + HEAT_RECALL_BOOST) ≤ 1 := min_le_left _ _
    have h3 : 3/10 ≤ min 1 (mem.heat + HEAT_RECALL_BOOST) := by
      apply le_min
      · norm_num
      · unfold HEAT_EVICT_THRESHOLD at hlb
        unfold HEAT_RECALL_BOOST
        linarith
    have hwf' : recordWF { mem with heat := min 1 (mem.heat + HEAT_RECALL_BOOST), last_recalled_turn := turn, status := MemoryStatus.active } := by
      refine ⟨h0, h1, ?_, by simp⟩
      show MemoryStatus.active = statusOfHeat (min 1 (mem.heat + HEAT_RECALL_BOOST))
      unfold statusOfHeat
      rw [if_neg (not_lt.mpr (le_trans (by norm_num [HEAT_EVICT_THRESHOLD]) h3)),
        if_neg (not_lt.mpr h3)]
    exact ⟨fun x hx => warmUpsert_wf _ _ hwf' hs.1 x hx,
           fun x hx => coldUpsert_wf _ _ hwf' hs.2 x hx⟩

lemma decayStep_wf (turn : Nat) (acc : MemoryStore × List String) (mem : MemoryObject)
    (hmem : recordWF mem) (hacc : storeWF acc.1) : storeWF (decayStep turn acc mem).1 := by
  simp only [decayStep]
  by_cases hrec : mem.last_recalled_turn < turn
  · rw [if_pos hrec]
    by_cases hev : max 0 (mem.heat - HEAT_DECAY_PER_TURN) < HEAT_EVICT_THRESHOLD
    · rw [if_pos hev]
      exact ⟨fun x hx => hacc.1 x (List.mem_of_mem_filter hx),
             fun x hx => hacc.2 x (List.mem_of_mem_filter hx)⟩
    · rw [if_neg hev]
      have h0 : 0 ≤ max 0 (mem.heat - HEAT_DECAY_PER_TURN) := le_max_left _ _
      have h1 : max 0 (mem.heat - HEAT_DECAY_PER_TURN) ≤ 1 := by
        apply max_le
        · norm_num
        · have := hmem.2.1
          unfold HEAT_DECAY_PER_TURN
          linarith
      by_cases hdec : max 0 (mem.heat - HEAT_DECAY_PER_TURN) < 3/10
      · rw [if_pos hdec]
        have hwf' : recordWF { mem with heat := max 0 (mem.heat - HEAT_DECAY_PER_TURN), status := MemoryStatus.decaying } := by
          refine ⟨h0, h1, ?_, by simp⟩
          show MemoryStatus.decaying = statusOfHeat (max 0 (mem.heat - HEAT_DECAY_PER_TURN))
          unfold statusOfHeat
          rw [if_neg hev, if_pos hdec]
        exact ⟨fun x hx => warmUpsert_wf _ _ hwf' hacc.1 x hx,
               fun x hx => coldUpsert_wf _ _ hwf' hacc.2 x hx⟩
      · rw [if_neg hdec]
        have hwf' : recordWF { mem with heat := max 0 (mem.heat - HEAT_DECAY_PER_TURN), status := MemoryStatus.active } := by
          refine ⟨h0, h1, ?_, by simp⟩
          show MemoryStatus.active = statusOfHeat (max 0 (mem.heat - HEAT_DECAY_PER_TURN))
          unfold statusOfHeat
          rw [if_neg hev, if_neg hdec]
        exact ⟨fun x hx => warmUpsert_wf _ _ hwf' hacc.1 x hx,
               fun x hx => coldUpsert_wf _ _ hwf' hacc.2 x hx⟩
  · rw [if_neg hrec]
    exact hacc

lemma decay_fold_wf (turn : Nat) (l : List MemoryObject) :
    ∀ acc : MemoryStore × List String, (∀ m ∈ l, recordWF m) → storeWF acc.1 →
      storeWF (l.foldl (decayStep turn) acc).1 := by
  induction l with
  | nil => intro acc _ h; exact h
  | cons x t ih =>
    intro acc hl hacc
    rw [List.foldl_cons]
    exact ih _ (fun m hm => hl m (List.mem_cons_of_mem _ hm))
      (decayStep_wf turn acc x (hl x (by simp)) hacc)

/-! ## Claim theorems -/

/-- Claim C1: a candidate sharing `(key, kind)` with an active record in the
batch lookup table resolves to Noop (equal normalized values) or Update
(different values) targeting that record's id, never Add or Delete, and the
outcome is independent of the semantic-search results (no contradiction check
is consulted). -/
theorem claim_C1 (c ex : MemoryObject) (table : KeyMap)
    (similar : List (MemoryObject × ℚ))
    (h : keyLookup (c.key, c.type) table = some ex) :
    (decideCandidate c table similar).target_id = some ex.memory_id ∧
    ((decideCandidate c table similar).operation = CuratorOp.noop ∨
      (decideCandidate c table similar).operation = CuratorOp.update) ∧
    (valuesAreSame c.value ex.value = true →
      (decideCandidate c table similar).operation = CuratorOp.noop) ∧
    (valuesAreSame c.value ex.value = false →
      (decideCandidate c table similar).operation = CuratorOp.update) := by
  unfold decideCandidate
  rw [h]
  cases hv : valuesAreSame c.value ex.value <;> simp [hv]

/-- Claim C1 witness: the spec's scenario — stored `("diet", Constraint) =
"vegetarian"`, candidate `("diet", Constraint) = "vegan"` — yields an Update of
the stored record. -/
theorem claim_C1_witness :
    (decideCandidate veganCandidate dietTable []).operation = CuratorOp.update ∧
    (decideCandidate veganCandidate dietTable []).target_id = some "mem_diet" := by
  have h := claim_C1 veganCandidate dietRecord dietTable [] (by decide)
  exact ⟨h.2.2.2 (by decide), h.1⟩

/-- Claim C2 counterexample: `candC2` has no exact key match; `recB` is above
the conflict threshold (score 3/5 ≥ 0.55) and numerically contradictory
("5pm" vs "8pm"), yet the decision is Noop, not Delete — the earlier hit
`recA` (score 4/5 ≥ 0.75, normalized-equal value) preempts the loop as a
semantic duplicate. -/
theorem claim_C2_counterexample :
    keyLookup (candC2.key, candC2.type) ([] : KeyMap) = none ∧
    SIMILARITY_FOR_CONFLICT ≤ (3/5 : ℚ) ∧
    isContradiction candC2.value recB.value = true ∧
    (decideCandidate candC2 [] [(recA, 4/5), (recB, 3/5)]).operation ≠ CuratorOp.delete ∧
    decideCandidate candC2 [] [(recA, 4/5), (recB, 3/5)] =
      ⟨CuratorOp.noop, candC2, some "mem_A"⟩ := by
  with_unfolding_all decide

/-- Claim C2 (amended): with no exact `(key, kind)` match, the decision is
Delete targeting the first semantic hit that is above the conflict threshold
and contradictory, provided no earlier hit triggers the duplicate or
contradiction rule; executing that decision removes the target from the
searchable tier and inserts the candidate, leaving the record count unchanged
(old-for-new swap). -/
theorem claim_C2_amended (c ex : MemoryObject) (table : KeyMap)
    (pre rest : List (MemoryObject × ℚ)) (score : ℚ) (s : MemoryStore) (turn : Nat)
    (hkey : keyLookup (c.key, c.type) table = none)
    (hpre : ∀ p ∈ pre,
      ¬(SIMILARITY_FOR_DUPLICATE ≤ p.2 ∧ valuesAreSame c.value p.1.value = true) ∧
      ¬(SIMILARITY_FOR_CONFLICT ≤ p.2 ∧ isContradiction c.value p.1.value = true))
    (hscore : SIMILARITY_FOR_CONFLICT ≤ score)
    (hcontra : isContradiction c.value ex.value = true)
    (hone : (s.warm.filter (fun x => decide (x.memory_id = ex.memory_id))).length = 1)
    (hfresh : ∀ x ∈ s.warm, x.memory_id ≠ c.memory_id)
    (hne : c.memory_id ≠ ex.memory_id) :
    decideCandidate c table (pre ++ (ex, score) :: rest) =
      ⟨CuratorOp.delete, c, some ex.memory_id⟩ ∧
    (executeDecision s (decideCandidate c table (pre ++ (ex, score) :: rest)) turn).warm.length
      = s.warm.length ∧
    c ∈ (executeDecision s (decideCandidate c table (pre ++ (ex, score) :: rest)) turn).warm ∧
    (∀ x ∈ (executeDecision s (decideCandidate c table (pre ++ (ex, score) :: rest)) turn).warm,
      x.memory_id ≠ ex.memory_id) := by
  have hnotsame : ¬ (valuesAreSame c.value ex.value = true) := by
    intro hv
    rw [valuesAreSame_not_contradiction c.value ex.value hv] at hcontra
    exact Bool.false_ne_true hcontra
  have hd : decideCandidate c table (pre ++ (ex, score) :: rest) =
      ⟨CuratorOp.delete, c, some ex.memory_id⟩ := by
    unfold decideCandidate
    rw [hkey, scanSimilar_append_of_no_trigger c pre _ hpre]
    simp only [scanSimilar]
    rw [if_neg (fun hand => hnotsame hand.2), if_pos ⟨hscore, hcontra⟩]
    rfl
  rw [hd]
  have hexec : executeDecision s ⟨CuratorOp.delete, c, some ex.memory_id⟩ turn =
      (s.delete ex.memory_id).add c := rfl
  rw [hexec]
  have hwarm : ((s.delete ex.memory_id).add c).warm =
      s.warm.filter (fun x => !(decide (x.memory_id = ex.memory_id))) ++ [c] := by
    show warmUpsert c (s.warm.filter (fun x => !(decide (x.memory_id = ex.memory_id)))) = _
    unfold warmUpsert
    have hany : (s.warm.filter (fun x => !(decide (x.memory_id = ex.memory_id)))).any
        (fun x => decide (x.memory_id = c.memory_id)) = false :=
      List.any_eq_false.mpr (fun x hx hc =>
        hfresh x (List.mem_of_mem_filter hx) (by simpa using hc))
    rw [if_neg (by simp [hany])]
  rw [hwarm]
  refine ⟨rfl, ?_, by simp, ?_⟩
  · have hlen := filter_not_length_add (fun x => decide (x.memory_id = ex.memory_id)) s.warm
    rw [hone] at hlen
    simp only [List.length_append, List.length_cons, List.length_nil]
    omega
  · intro x hx
    rcases List.mem_append.mp hx with hx1 | hx2
    · have := List.of_mem_filter hx1
      simpa using this
    · rw [List.mem_singleton.mp hx2]
      exact hne

/-- Claim C2 witness: the amended claim at a concrete input — a one-record
store, a fresh contradictory candidate, a singleton hit list — yields the
Delete decision and the net-zero swap. -/
theorem claim_C2_witness :
    decideCandidate candC2 [] [(recB, 3/5)] = ⟨CuratorOp.delete, candC2, some "mem_B"⟩ ∧
    (executeDecision storeB (decideCandidate candC2 [] [(recB, 3/5)]) 2).warm.length
      = storeB.warm.length ∧
    candC2 ∈ (executeDecision storeB (decideCandidate candC2 [] [(recB, 3/5)]) 2).warm := by
  have h := claim_C2_amended candC2 recB [] [] [] (3/5) storeB 2 rfl (by simp)
    (by with_unfolding_all decide) (by with_unfolding_all decide)
    (by with_unfolding_all decide) (by with_unfolding_all decide)
    (by with_unfolding_all decide)
  exact ⟨h.1, h.2.1, h.2.2.1⟩

/-- Claim C4 (code bug): within one `Curator.process` batch the lookup table is
not refreshed after a Delete decision.  With `oldRec` stored, the first
candidate's contradiction deletes `oldRec`, yet the second candidate — sharing
`oldRec`'s `(key, kind)` — still matches the stale table entry, resolves to
Update against the deleted id, and its value is silently dropped from every
tier: the store ends holding only the first candidate. -/
theorem claim_C4_bug :
    ((curatorProcess searchC4 [cand1, cand2] 1 storeC4).1.map (fun d => d.operation)) =
      [CuratorOp.delete, CuratorOp.update] ∧
    ((curatorProcess searchC4 [cand1, cand2] 1 storeC4).1.map (fun d => d.target_id)) =
      [some "mem_old", some "mem_old"] ∧
    ((curatorProcess searchC4 [cand1, cand2] 1 storeC4).2.warm.map (fun m => m.memory_id)) =
      ["mem_c1"] ∧
    (∀ x ∈ (curatorProcess searchC4 [cand1, cand2] 1 storeC4).2.warm, x.value ≠ cand2.value) ∧
    (∀ x ∈ (curatorProcess searchC4 [cand1, cand2] 1 storeC4).2.cold, x.value ≠ cand2.value) := by
  with_unfolding_all decide

/-- Claim C3 counterexample: with 21 equal-relevance active Constraint records
of 15 estimated tokens each, the 300-token budget admits only 20; the 21st is a
non-evicted always-inject record absent from the returned memory list. -/
theorem claim_C3_counterexample :
    cRec 21 ∈ store21.warm ∧
    (cRec 21).type = MemoryType.constraint ∧
    (cRec 21).status ≠ MemoryStatus.evicted ∧
    (oracleRetrieve (fun _ _ => []) "q" 1 store21).1.memories.length = 20 ∧
    cRec 21 ∉ (oracleRetrieve (fun _ _ => []) "q" 1 store21).1.memories := by
  with_unfolding_all decide

/-- Claim C3 (amended): every non-evicted Constraint/Commitment record of the
warm tier reaches the merged, rank-sorted candidate list independent of
semantic score (warm ids unique and search hits drawn from the warm tier); it
appears in the returned memory list whenever the token budget admits the whole
ranked list — records cut by the budget are the only exception. -/
theorem claim_C3_amended (searchFn : SearchFn) (query : String) (turn : Nat)
    (s : MemoryStore) (r : MemoryObject)
    (hids : (s.warm.map (fun m => m.memory_id)).Nodup)
    (hsearch : ∀ p ∈ searchFn query s, p.1 ∈ s.warm)
    (hr : r ∈ s.warm)
    (htype : r.type = MemoryType.constraint ∨ r.type = MemoryType.commitment)
    (hst : r.status ≠ MemoryStatus.evicted) :
    r ∈ oracleSelected searchFn query s ∧
    r ∈ oracleRanked searchFn query turn s ∧
    (tokenSum (oracleRanked searchFn query turn s) ≤ MAX_MEMORY_TOKENS →
      r ∈ (oracleRetrieve searchFn query turn s).1.memories) := by
  have hsel := mem_oracleSelected searchFn query s r hids hsearch hr htype hst
  have hrank : r ∈ oracleRanked searchFn query turn s :=
    (sortByRelevance_perm (relevanceScore turn) _).mem_iff.mpr hsel
  refine ⟨hsel, hrank, fun hbud => ?_⟩
  have hmem : (oracleRetrieve searchFn query turn s).1.memories
      = (budgetLoop (oracleRanked searchFn query turn s) 0).1 := rfl
  rw [hmem, budgetLoop_all _ 0 (by omega)]
  exact hrank

/-- Claim C3 witness: the amended claim at a concrete input — a one-record
store whose Constraint fits the budget is selected, ranked, and returned. -/
theorem claim_C3_witness :
    recB ∈ oracleSelected (fun _ _ => []) "hello" storeB ∧
    recB ∈ (oracleRetrieve (fun _ _ => []) "hello" 3 storeB).1.memories := by
  have h := claim_C3_amended (fun _ _ => []) "hello" 3 storeB recB
    (by decide) (by simp) (by decide) (Or.inl rfl) (by decide)
  exact ⟨h.1, h.2.2 (by with_unfolding_all decide)⟩

/-- Claim C5: the retrieval's reported token total is the sum of the accepted
records' estimates and never exceeds the 300-token budget, and the accepted
list is a greedy prefix of the rank-sorted candidate list — whenever a record
was cut off, it is the first one whose estimate would have pushed the running
total past the budget. -/
theorem claim_C5 (searchFn : SearchFn) (query : String) (turn : Nat) (s : MemoryStore) :
    (oracleRetrieve searchFn query turn s).1.total_tokens
      = tokenSum (oracleRetrieve searchFn query turn s).1.memories ∧
    tokenSum (oracleRetrieve searchFn query turn s).1.memories ≤ MAX_MEMORY_TOKENS ∧
    ∃ k, (oracleRetrieve searchFn query turn s).1.memories
        = (oracleRanked searchFn query turn s).take k ∧
      ∀ m rest, (oracleRanked searchFn query turn s).drop k = m :: rest →
        MAX_MEMORY_TOKENS <
          tokenSum ((oracleRanked searchFn query turn s).take k) + tokenEstimate m := by
  have hmem : (oracleRetrieve searchFn query turn s).1.memories
      = (budgetLoop (oracleRanked searchFn query turn s) 0).1 := rfl
  have htot : (oracleRetrieve searchFn query turn s).1.total_tokens
      = (budgetLoop (oracleRanked searchFn query turn s) 0).2 := rfl
  obtain ⟨h1, h2, k, hk, hnext⟩ :=
    budgetLoop_spec (oracleRanked searchFn query turn s) 0 (Nat.zero_le _)
  refine ⟨?_, ?_, k, ?_, ?_⟩
  · rw [hmem, htot, h1, Nat.zero_add]
  · rw [hmem]
    have h2' := h2
    rw [h1, Nat.zero_add] at h2'
    exact h2'
  · rw [hmem, hk]
  · intro m rest hdrop
    have := hnext m rest hdrop
    omega

/-- Claim C9: after any sequence of turns whose appended entries exceed the
20-entry cap, the history equals the last 20 entries of the full transcript in
order — which is exactly the transcript of the 10 most recent complete
(user, assistant) turn pairs. -/
theorem claim_C9 (pairs : List (String × String))
    (hcap : HISTORY_WINDOW ≤ 2 * pairs.length) :
    historyAfter pairs = takeLastN HISTORY_WINDOW (renderLog pairs) ∧
    (historyAfter pairs).length = HISTORY_WINDOW ∧
    historyAfter pairs = renderLog (takeLastN 10 pairs) := by
  have h1 := historyAfter_spec pairs
  refine ⟨h1, ?_, ?_⟩
  · rw [h1]
    unfold takeLastN
    rw [List.length_drop, renderLog_length]
    unfold HISTORY_WINDOW at hcap ⊢
    omega
  · rw [h1]
    unfold takeLastN
    rw [renderLog_drop, renderLog_length]
    congr 1
    unfold HISTORY_WINDOW
    omega

/-- Claim C9 witness: with twelve turns appended, exactly the 20 most recent
entries remain, forming the transcript of the last ten complete pairs. -/
theorem claim_C9_witness :
    (historyAfter pairs12).length = HISTORY_WINDOW ∧
    historyAfter pairs12 = renderLog (takeLastN 10 pairs12) := by
  have h := claim_C9 pairs12 (by decide)
  exact ⟨h.2.1, h.2.2⟩

/-- Claim C6: with heat 1.0 at creation, fixed decay 0.04 per turn and no
recalls, under the binary64 arithmetic the code runs the accumulated rounding
puts the heat strictly below the 0.08 eviction threshold for the first time at
sweep ⌈(1.0−0.08)/0.04⌉ = 23 — the heat after sweep 22 is still at or above the
threshold while its sweep-23 decrement is below — and `apply_decay` evicts the
record, reporting its id and purging both tiers, exactly at sweep 23 (within
the claim's "that sweep or the immediately following one"), never at an earlier
sweep. -/
theorem claim_C6 :
    (∀ n : Nat, n < 23 → fpSweepEvictedAt n = [] ∧ (fpSweepState n).warm ≠ []) ∧
    (∀ h ∈ (fpSweepState 22).warm.map (fun m => m.heat),
      ¬ (h < HEAT_EVICT_THRESHOLD_FP) ∧
        max 0 (fp64Sub h HEAT_DECAY_PER_TURN_FP) < HEAT_EVICT_THRESHOLD_FP) ∧
    fpSweepEvictedAt 23 = ["m_decay"] ∧
    (fpSweepState 23).warm = [] ∧ (fpSweepState 23).cold = [] := by
  with_unfolding_all decide

/-- Claim C7: each public store operation preserves the invariant that every
record held in the searchable and durable tiers has heat in [0,1] and a status
that is the pure function of its heat (Active iff heat ≥ 0.3, Decaying iff
0.08 ≤ heat < 0.3), with no Evicted record stored in either tier — eviction
only ever deletes from both. -/
theorem claim_C7 (s : MemoryStore) (hs : storeWF s) :
    (∀ r, recordWF r → storeWF (s.add r)) ∧
    (∀ memId v turn, storeWF (s.update memId v turn)) ∧
    (∀ memId, storeWF (s.delete memId)) ∧
    (∀ memId turn, storeWF (s.markRecalled memId turn)) ∧
    (∀ turn, storeWF (s.applyDecay turn).1) := by
  refine ⟨?_, ?_, ?_, ?_, ?_⟩
  · intro r hr
    exact ⟨fun x hx => warmUpsert_wf _ _ hr hs.1 x hx,
           fun x hx => coldUpsert_wf _ _ hr hs.2 x hx⟩
  · intro memId v turn
    exact update_wf s hs memId v turn
  · intro memId
    exact ⟨fun x hx => hs.1 x (List.mem_of_mem_filter hx),
           fun x hx => hs.2 x (List.mem_of_mem_filter hx)⟩
  · intro memId turn
    exact markRecalled_wf s hs memId turn
  · intro turn
    exact decay_fold_wf turn s.warm (s, []) hs.1 hs

/-- Claim C7 witness: the invariant at a concrete well-formed one-record store,
preserved across a recall boost, a decay sweep, and an add. -/
theorem claim_C7_witness :
    storeWF storeB ∧
    storeWF (storeB.markRecalled "mem_B" 3) ∧
    storeWF (storeB.applyDecay 1).1 ∧
    storeWF (storeB.add veganCandidate) := by
  have hwf : storeWF storeB := by with_unfolding_all decide
  exact ⟨hwf, (claim_C7 storeB hwf).2.2.2.1 "mem_B" 3,
    (claim_C7 storeB hwf).2.2.2.2 1,
    (claim_C7 storeB hwf).1 veganCandidate (by with_unfolding_all decide)⟩

/-- Claim C8 counterexample: on a persistent path, `reset` rebuilds the store
from the surviving durable rows, so the session's memory is not wiped — the
persisted record is searchable again after the reset. -/
theorem claim_C8_counterexample :
    (engineReset engineP).store.warm = [recPersisted] ∧
    (engineReset engineP).store.cold = [recPersisted] := by
  with_unfolding_all decide

/-- Claim C8 (amended): `reset` zeroes the turn counter, empties the history
and the hot tier; with the ephemeral `:memory:` path the new store is fully
empty, while with a persistent path the durable rows are preserved and
re-indexed into the new store (memory is not wiped). -/
theorem claim_C8_amended (e : EngineState) :
    (engineReset e).turn_number = 0 ∧
    (engineReset e).history = [] ∧
    (engineReset e).store.hot = [] ∧
    (e.dbPersistent = false →
      (engineReset e).store.warm = [] ∧ (engineReset e).store.cold = []) ∧
    (e.dbPersistent = true → (engineReset e).store.cold = e.store.cold) := by
  unfold engineReset mkMemoryStore
  refine ⟨rfl, rfl, rfl, fun h => ?_, fun h => ?_⟩ <;> simp [h]

/-- Claim C10 counterexample: re-adding the identical record is not idempotent
on the recent tier — the hot ring buffer holds the record twice. -/
theorem claim_C10_counterexample :
    ((emptyStore.add recB).add recB).hot ≠ (emptyStore.add recB).hot ∧
    ((emptyStore.add recB).add recB).hot.length = 2 ∧
    ((emptyStore.add recB).add recB).warm = (emptyStore.add recB).warm ∧
    ((emptyStore.add recB).add recB).cold = (emptyStore.add recB).cold := by
  with_unfolding_all decide

/-- Claim C10 (amended): re-adding an identical record leaves the searchable
and durable tiers unchanged (idempotent upsert), but the recent tier receives a
second copy at the front of the ring buffer. -/
theorem claim_C10_amended (r : MemoryObject) (s : MemoryStore) :
    ((s.add r).add r).warm = (s.add r).warm ∧
    ((s.add r).add r).cold = (s.add r).cold ∧
    ((s.add r).add r).hot = (r :: (s.add r).hot).take HOT_SIZE := by
  refine ⟨?_, ?_, rfl⟩
  · show warmUpsert r (warmUpsert r s.warm) = warmUpsert r s.warm
    exact warmUpsert_idem r s.warm
  · show coldUpsert r (coldUpsert r s.cold) = coldUpsert r s.cold
    exact coldUpsert_idem r s.cold

end Mnemosyne
